import Mathlib

/-!
# Verification of the multi-semantic-release orchestrator core

Shallow embedding of `src/lib/multiSemanticRelease.js` (orchestrator, graph
builder, per-package release task) and of the CLI flag post-processing
(`processFlags`).  External collaborators (the semantic-release engine,
filesystem config loading) are abstracted as parameters; repository helpers
that are not part of the provided sources (blork shape checks,
`isCyclicProject`, the Synchronizer internals, `getConfigSemantic`) are
modelled from the specification, as marked on each definition.
-/

namespace MSR

/-- A JavaScript-like value, used to embed the run-time shape checks that
`multiSemanticRelease` performs on its `paths` / `packageManifests`
arguments.  Numbers are modelled as integers (NaN is not needed by any
check involved). -/
inductive JSV where
  | undef : JSV
  | nullv : JSV
  | boolv : Bool → JSV
  | numv : Int → JSV
  | strv : String → JSV
  | arrv : List JSV → JSV
  | objv : List (String × JSV) → JSV

/-- JavaScript truthiness: `undefined`, `null`, `false`, `0` and the empty
string are falsy; every array and object is truthy. -/
def truthy : JSV → Bool
  | .undef => false
  | .nullv => false
  | .boolv b => b
  | .numv n => n != 0
  | .strv s => s != ""
  | .arrv _ => true
  | .objv _ => true

/-- Modelled from the spec: the blork check "paths: string[]" (the blork
module is not under src/); per the spec a supplied `paths` must be a string
list. -/
def isStringArray : JSV → Bool
  | .arrv l => l.all (fun v => match v with | .strv _ => true | _ => false)
  | _ => false

/-- Modelled from the spec: the blork check "packageManifests: objectlike[]"
(the blork module is not under src/); per the spec a supplied
`packageManifests` must be an object list. -/
def isObjectlikeArray : JSV → Bool
  | .arrv l => l.all (fun v => match v with | .objv _ => true | _ => false)
  | _ => false

/-- Modelled from the spec: outcomes of the blork shape checks on the
run-time environment (`cwd: directory`, `env: objectlike`,
`stdout: stream`, `stderr: stream`).  Directory and stream checks inspect
the process environment, so they enter the model as boolean facts. -/
structure Settings where
  cwdIsDirectory : Bool
  envIsObjectlike : Bool
  stdoutIsStream : Bool
  stderrIsStream : Bool
deriving DecidableEq, Repr

/-- The error kinds the orchestrator can raise (spec section 7). -/
inductive RunError where
  | configError : String → RunError
  | cyclicError : RunError
  | pipelineError : String → RunError
deriving DecidableEq, Repr

/-- Embeds the parameter validation of `multiSemanticRelease`
(src/lib/multiSemanticRelease.js lines 68-79): `paths && check(paths, ...)`
runs the shape check only on a truthy value, then the presence check, then
the environment checks, in source order. -/
def validateArgs (paths packageManifests : JSV) (s : Settings) : Except RunError Unit :=
  if truthy paths && !(isStringArray paths) then
    .error (.configError "paths: string[]")
  else if truthy packageManifests && !(isObjectlikeArray packageManifests) then
    .error (.configError "packageManifests: objectlike[]")
  else if !(truthy paths) && !(truthy packageManifests) then
    .error (.configError "You have to provide either paths[] or packageManifests[]")
  else if !s.cwdIsDirectory then
    .error (.configError "cwd: directory")
  else if !s.envIsObjectlike then
    .error (.configError "env: objectlike")
  else if !s.stdoutIsStream then
    .error (.configError "stdout: stream")
  else if !s.stderrIsStream then
    .error (.configError "stderr: stream")
  else
    .ok ()

/-- Whether an `Except` result is an error. -/
def isErr {ε α : Type} : Except ε α → Bool
  | .error _ => true
  | .ok _ => false

/-- A settings record that passes every environment shape check. -/
def okSettings : Settings := ⟨true, true, true, true⟩

example : validateArgs .undef .undef okSettings =
    .error (.configError "You have to provide either paths[] or packageManifests[]") := rfl

example : validateArgs (.arrv [.strv "packages/a/package.json"]) .undef okSettings = .ok () := rfl

example : validateArgs (.strv "") (.arrv [.objv []]) okSettings = .ok () := rfl

/-! ## Packages and the local-dependency graph -/

/-- A loaded package record, as produced by `getPackage`
(src/lib/multiSemanticRelease.js lines 169-197): `name` comes from the
manifest, `deps` is the combined list of all dependency names (all four
dependency kinds merged, line 174-179), `options` is the resolved option
set for this package (line 186-193, values modelled as strings).  The
`localDeps` and `result` fields are not part of the loaded record: they are
computed by the orchestrator and modelled separately. -/
structure Package where
  name : String
  deps : List String
  options : List (String × String)
deriving DecidableEq, Repr

/-- Accumulator-based first-occurrence de-duplication; `uniqAux seen l`
keeps the elements of `l` not already in `seen`, first occurrence wins. -/
def uniqAux {α : Type} [DecidableEq α] (seen : List α) : List α → List α
  | [] => []
  | x :: xs => if x ∈ seen then uniqAux seen xs else x :: uniqAux (x :: seen) xs

/-- lodash `uniq`: de-duplication keeping the first occurrence of each
element (SameValueZero on the identical records returned by `find`
corresponds to structural equality here). -/
def uniq {α : Type} [DecidableEq α] (l : List α) : List α := uniqAux [] l

/-- `packages.find((p) => d === p.name)`: first loaded package whose name
equals the dependency name `d`. -/
def findPackage (packages : List Package) (d : String) : Option Package :=
  packages.find? (fun p => d == p.name)

/-- Embeds the graph-builder line
`pkg.localDeps = uniq(pkg.deps.map((d) => packages.find((p) => d === p.name)).filter(Boolean))`
(src/lib/multiSemanticRelease.js line 98): map each declared dependency
name to its loaded package record, drop the misses, de-duplicate. -/
def localDeps (packages : List Package) (pkg : Package) : List Package :=
  uniq (pkg.deps.filterMap (findPackage packages))

theorem mem_uniqAux {α : Type} [DecidableEq α] (l : List α) :
    ∀ (seen : List α) (a : α), a ∈ uniqAux seen l ↔ a ∈ l ∧ a ∉ seen := by
  induction l with
  | nil => intro seen a; simp [uniqAux]
  | cons x xs ih =>
    intro seen a
    by_cases hx : x ∈ seen
    · rw [uniqAux, if_pos hx, ih]
      constructor
      · rintro ⟨ha, hns⟩; exact ⟨List.mem_cons_of_mem _ ha, hns⟩
      · rintro ⟨ha, hns⟩
        rcases List.mem_cons.mp ha with rfl | ha
        · exact absurd hx hns
        · exact ⟨ha, hns⟩
    · rw [uniqAux, if_neg hx]
      constructor
      · intro h
        rcases List.mem_cons.mp h with rfl | h2
        · exact ⟨List.mem_cons_self a xs, hx⟩
        · have h3 := (ih (x :: seen) a).mp h2
          exact ⟨List.mem_cons_of_mem _ h3.1, fun hs => h3.2 (List.mem_cons_of_mem _ hs)⟩
      · rintro ⟨ha, hns⟩
        rcases List.mem_cons.mp ha with rfl | ha2
        · exact List.mem_cons_self a _
        · by_cases hax : a = x
          · subst hax; exact List.mem_cons_self a _
          · refine List.mem_cons_of_mem _ ((ih (x :: seen) a).mpr ⟨ha2, ?_⟩)
            intro hs
            rcases List.mem_cons.mp hs with h | h
            · exact hax h
            · exact hns h

theorem nodup_uniqAux {α : Type} [DecidableEq α] (l : List α) :
    ∀ seen : List α, (uniqAux seen l).Nodup := by
  induction l with
  | nil => intro seen; simp [uniqAux]
  | cons x xs ih =>
    intro seen
    by_cases hx : x ∈ seen
    · simpa [uniqAux, if_pos hx] using ih seen
    · simp only [uniqAux, if_neg hx]
      refine List.nodup_cons.mpr ⟨fun hmem => ?_, ih (x :: seen)⟩
      exact ((mem_uniqAux xs (x :: seen) x).mp hmem).2 (List.mem_cons_self x seen)

theorem mem_uniq {α : Type} [DecidableEq α] (l : List α) (a : α) :
    a ∈ uniq l ↔ a ∈ l := by
  simp [uniq, mem_uniqAux]

theorem nodup_uniq {α : Type} [DecidableEq α] (l : List α) : (uniq l).Nodup :=
  nodup_uniqAux l []

/-- With pairwise-distinct package names, `find` on a member's own name
returns exactly that member. -/
theorem findPackage_self (packages : List Package) (q : Package)
    (hnodup : (packages.map Package.name).Nodup) (hq : q ∈ packages) :
    findPackage packages q.name = some q := by
  induction packages with
  | nil => cases hq
  | cons p rest ih =>
    have hnames : p.name ∉ rest.map Package.name ∧ (rest.map Package.name).Nodup := by
      rw [List.map_cons] at hnodup
      exact List.nodup_cons.mp hnodup
    rcases List.mem_cons.mp hq with rfl | hq'
    · simp [findPackage, List.find?]
    · by_cases hname : q.name == p.name
      · exfalso
        have hmemname : q.name ∈ rest.map Package.name := List.mem_map_of_mem Package.name hq'
        rw [eq_of_beq hname] at hmemname
        exact hnames.1 hmemname
      · simp only [findPackage, List.find?, hname]
        exact ih hnames.2 hq'

/-- Characterization of the local-dependency membership: `q` is a local
dependency of `pkg` exactly when `q` is a loaded package whose name occurs
among `pkg`'s declared dependency names (given pairwise-distinct package
names). -/
theorem mem_localDeps_iff (packages : List Package) (pkg q : Package)
    (hnodup : (packages.map Package.name).Nodup) :
    q ∈ localDeps packages pkg ↔ q ∈ packages ∧ q.name ∈ pkg.deps := by
  unfold localDeps
  rw [mem_uniq, List.mem_filterMap]
  constructor
  · rintro ⟨d, hd, hfind⟩
    unfold findPackage at hfind
    have hmem : q ∈ packages := List.mem_of_find?_eq_some hfind
    have hpred := List.find?_some hfind
    have hdq : d = q.name := by simpa using hpred
    refine ⟨hmem, ?_⟩
    rw [← hdq]
    exact hd
  · rintro ⟨hmem, hname⟩
    exact ⟨q.name, hname, findPackage_self packages q hnodup hmem⟩

/-- Every local dependency is a loaded package whose name is declared; no
distinctness hypothesis needed for this direction. -/
theorem localDeps_subset (packages : List Package) (pkg q : Package)
    (hq : q ∈ localDeps packages pkg) : q ∈ packages ∧ q.name ∈ pkg.deps := by
  unfold localDeps at hq
  rw [mem_uniq, List.mem_filterMap] at hq
  rcases hq with ⟨d, hd, hfind⟩
  unfold findPackage at hfind
  have hmem : q ∈ packages := List.mem_of_find?_eq_some hfind
  have hpred := List.find?_some hfind
  have hdq : d = q.name := by simpa using hpred
  refine ⟨hmem, ?_⟩
  rw [← hdq]
  exact hd

/-! ## Cycle detection (spec section 4.2) -/

/-- Modelled from the spec: one-or-more-step reachability along
local-dependency edges, with an explicit step budget.  Used to express the
cycle predicate of `isCyclicProject` (src/lib/isCyclicProject.js is not
under src/): spec section 4.2 describes a directed-cycle check over the
dependency edges. -/
def reachesWithin (packages : List Package) : Nat → Package → Package → Bool
  | 0, _, _ => false
  | n + 1, p, q =>
    (localDeps packages p).any (fun r => r == q || reachesWithin packages n r q)

/-- Modelled from the spec: `isCyclicProject` (src/lib/isCyclicProject.js is
not under src/); spec section 4.2: "Exposed as a single predicate: the graph
contains at least one cycle."  A directed cycle exists exactly when some
package reaches itself in at least one and at most `packages.length`
steps (a minimal cycle never repeats a node). -/
def isCyclicProject (packages : List Package) : Bool :=
  packages.any (fun p => reachesWithin packages packages.length p p)

/-! ## The run model: flags, engine, events, tasks, orchestrator -/

/-- The argv flags read by the orchestrator control flow
(src/lib/multiSemanticRelease.js lines 103 and 120).  The remaining flags
only flow into the option spread of `releasePackage`, modelled separately
by `releaseOptions`. -/
structure Flags where
  sequentialInit : Bool
  sequentialPrepare : Bool
deriving DecidableEq, Repr

/-- Outcome of one invocation of the external release engine
(`semanticRelease(...)`, spec section 6): the returned promise either
rejects, resolves with a falsy skipped marker, or resolves with a
structured release outcome (abstracted to a string). -/
inductive EngineResult where
  | rejected : String → EngineResult
  | noRelease : EngineResult
  | released : String → EngineResult
deriving DecidableEq, Repr

/-- Whether the engine invocation rejected. -/
def EngineResult.isRejected : EngineResult → Bool
  | .rejected _ => true
  | _ => false

/-- The external release engine, abstracted as a map from package name to
the outcome of its single-unit pipeline. -/
def Engine : Type := String → EngineResult

/-- Observable events of one orchestrator run, in order.  Signal events
carry the signal name and the package name; `writeResult` carries the value
assigned to `pkg.result` (`none` models the falsy skipped marker). -/
inductive Ev where
  | loadedPackage : String → Ev
  | queuedPackages : Nat → Ev
  | createSynchronizer : Ev
  | getLuckySignal : String → String → Ev
  | waitForSignal : String → String → Ev
  | invokePipeline : String → Ev
  | writeResult : String → Option String → Ev
  | logReleased : Nat → Nat → Ev
deriving DecidableEq, Repr

/-- The signal name used by the sequential-init gate
(src/lib/multiSemanticRelease.js lines 121-122). -/
def readyForRelease : String := "_readyForRelease"

/-- What one settled package task leaves behind: its ordered events, the
final value of the package's `result` field (`none` when the field was
never assigned, i.e. still undefined), and the rejection reason if the
engine invocation rejected. -/
structure TaskOutcome where
  events : List Ev
  result : Option (Option String)
  failure : Option String
deriving DecidableEq, Repr

/-- Embeds `releasePackage` (src/lib/multiSemanticRelease.js lines
210-243): invoke the engine on the package and assign `pkg.result` to the
resolved value (line 237).  When the engine rejects, the `await` throws
before the assignment, so `result` stays unassigned and the task carries
the rejection. -/
def releasePackage (engine : Engine) (pkg : Package) : TaskOutcome :=
  match engine pkg.name with
  | .rejected e => ⟨[.invokePipeline pkg.name], none, some e⟩
  | .noRelease => ⟨[.invokePipeline pkg.name, .writeResult pkg.name none], some none, none⟩
  | .released o =>
    ⟨[.invokePipeline pkg.name, .writeResult pkg.name (some o)], some (some o), none⟩

/-- Embeds one element of the `packages.map(async (pkg) => ...)` task set
(src/lib/multiSemanticRelease.js lines 117-126): with `sequentialInit` the
task first claims (`getLucky`) and then awaits (`waitFor`) the
`_readyForRelease` signal, then runs `releasePackage`; otherwise it runs
`releasePackage` directly. -/
def packageTask (flags : Flags) (engine : Engine) (pkg : Package) : TaskOutcome :=
  let t := releasePackage engine pkg
  if flags.sequentialInit then
    ⟨.getLuckySignal readyForRelease pkg.name ::
       .waitForSignal readyForRelease pkg.name :: t.events,
     t.result, t.failure⟩
  else
    t

/-- Whether a final `result` value is truthy in the sense of the filter
`packages.filter((pkg) => pkg.result)` (line 128): only a structured
outcome counts; an unassigned field and the falsy skipped marker do not. -/
def resultTruthy : Option (Option String) → Bool
  | some (some _) => true
  | _ => false

/-- The value returned by a successful run: the full package list with each
package's final `result`, and the count of released packages. -/
structure RunOutput where
  packages : List (Package × Option (Option String))
  released : Nat
deriving DecidableEq, Repr

/-- Embeds the orchestration after loading
(src/lib/multiSemanticRelease.js lines 94-132): link local dependencies and
log each load, fail fast with the cyclic error when `sequentialPrepare` is
set on a cyclic graph (lines 103-106, before the synchronizer is created),
otherwise create the synchronizer, run every package task, and settle the
task set like `Promise.all`: every task runs (no cancellation), but if any
task rejected the aggregate rejects with a rejection reason (first in list
order, standing in for first-in-time) and neither the summary log nor the
package list is produced; otherwise the released count is logged and the
package list returned. -/
def msrRun (flags : Flags) (engine : Engine) (packages : List Package) :
    List Ev × Except RunError RunOutput :=
  let loadEvs := packages.map (fun p => Ev.loadedPackage p.name)
  if flags.sequentialPrepare && isCyclicProject packages then
    (loadEvs, .error .cyclicError)
  else
    let tasks := packages.map (fun p => (p, packageTask flags engine p))
    let taskEvs := (tasks.map (fun t => t.2.events)).flatten
    let preEvs := loadEvs ++ [Ev.queuedPackages packages.length, Ev.createSynchronizer]
    match tasks.findSome? (fun t => t.2.failure) with
    | some e => (preEvs ++ taskEvs, .error (.pipelineError e))
    | none =>
      let released := (tasks.filter (fun t => resultTruthy t.2.result)).length
      (preEvs ++ taskEvs ++ [Ev.logReleased released packages.length],
       .ok ⟨tasks.map (fun t => (t.1, t.2.result)), released⟩)

/-- The top-level entry point: parameter validation (lines 68-80) happens
before anything else; package loading itself goes through the filesystem
(`getConfig`, `getManifest`) and is abstracted by the `loaded` list its
results feed into the run. -/
def multiSemanticRelease (paths packageManifests : JSV) (s : Settings)
    (flags : Flags) (engine : Engine) (loaded : List Package) :
    List Ev × Except RunError RunOutput :=
  match validateArgs paths packageManifests s with
  | .error e => ([], .error e)
  | .ok _ => msrRun flags engine loaded

/-! ## Option assembly for the engine invocation (lines 184-186, 220-233) -/

/-- Lookup in an assembled JavaScript object, modelled as an assignment
list where later entries shadow earlier ones (the semantics of both object
spread and `Object.assign`). -/
def olookup : List (String × String) → String → Option String
  | [], _ => none
  | kv :: rest, k =>
    match olookup rest k with
    | some v => some v
    | none => if kv.1 == k then some kv.2 else none

/-- A value in the final option object handed to `semanticRelease`: every
configuration entry is a scalar (modelled as a string), except the
`_pkgOptions` entry which holds the whole per-package option object
(line 233). -/
inductive RVal where
  | str : String → RVal
  | obj : List (String × String) → RVal
deriving DecidableEq, Repr

/-- Lookup in the final option object, later entries shadowing earlier
ones. -/
def rlookup : List (String × RVal) → String → Option RVal
  | [], _ => none
  | kv :: rest, k =>
    match rlookup rest k with
    | some v => some v
    | none => if kv.1 == k then some kv.2 else none

/-- Embeds `getPackage`'s option resolution (line 186):
`Object.assign({}, globalOptions, pkgOptions, inputOptions)` — later
arguments override earlier ones.  `getConfigSemantic` (not under src/) is
modelled from the spec as preserving the merged options it is given. -/
def getPackageOptions (globalOptions pkgSpecificOptions inputOptions : List (String × String)) :
    List (String × String) :=
  globalOptions ++ pkgSpecificOptions ++ inputOptions

/-- Embeds the option assembly of `releasePackage` (lines 225-233):
`options = { ...flags, ...pkgOptions, ...inlinePlugin }`, then
`options.tagFormat = name + "@${version}"`, then
`options._pkgOptions = pkgOptions`. -/
def releaseOptions (pkg : Package) (flags inlinePlugin : List (String × String)) :
    List (String × RVal) :=
  ((flags ++ pkg.options ++ inlinePlugin).map (fun kv => (kv.1, RVal.str kv.2)))
    ++ [("tagFormat", RVal.str (pkg.name ++ "@${version}"))]
    ++ [("_pkgOptions", RVal.obj pkg.options)]

/-- Whether the first list is an initial segment of the second. -/
def matchesAt : List Char → List Char → Bool
  | [], _ => true
  | _ :: _, [] => false
  | p :: ps, c :: cs => p == c && matchesAt ps cs

/-- Fuel-indexed replacement of every occurrence of `pat` by `rep`; the
fuel is the input length, which suffices since each step consumes at least
one character. -/
def replaceFuel (pat rep : List Char) : Nat → List Char → List Char
  | 0, s => s
  | _ + 1, [] => []
  | n + 1, c :: rest =>
    if !pat.isEmpty && matchesAt pat (c :: rest) then
      rep ++ replaceFuel pat rep n (List.drop pat.length (c :: rest))
    else
      c :: replaceFuel pat rep n rest

/-- Modelled from the spec: the release engine renders the tag template by
substituting the concrete version for the version slot (spec section 4.4:
the tag template embeds the unit identity as name-at-version). -/
def renderTag (tagFormat version : String) : String :=
  String.mk (replaceFuel "${version}".toList version.toList tagFormat.toList.length tagFormat.toList)

example : renderTag ("pkg-a" ++ "@${version}") "1.2.0" = "pkg-a@1.2.0" := by decide

/-! ## Concrete fixtures used by witnesses and counterexamples -/

/-- A dependency-free package named a. -/
def pkgA : Package := ⟨"a", [], []⟩

/-- A package named b depending on a. -/
def pkgB : Package := ⟨"b", ["a"], []⟩

/-- First half of a two-cycle. -/
def pkgC1 : Package := ⟨"c1", ["c2"], []⟩

/-- Second half of a two-cycle. -/
def pkgC2 : Package := ⟨"c2", ["c1"], []⟩

/-- Flags with both sequential modes off. -/
def flagsNone : Flags := ⟨false, false⟩

/-- Flags with only sequentialInit. -/
def flagsSeqInit : Flags := ⟨true, false⟩

/-- Flags with only sequentialPrepare. -/
def flagsSeqPrepare : Flags := ⟨false, true⟩

/-- An engine whose every invocation rejects. -/
def engineBoom : Engine := fun _ => .rejected "boom"

/-- An engine whose every invocation resolves with a release. -/
def engineGood : Engine := fun _ => .released "1.0.0"

example : isCyclicProject [pkgC1, pkgC2] = true := by decide

example : isCyclicProject [pkgA, pkgB] = false := by decide

example : (msrRun flagsNone engineBoom [pkgA]).2 = .error (.pipelineError "boom") := rfl

example : (msrRun flagsSeqPrepare engineGood [pkgC1, pkgC2]).2 = .error .cyclicError := rfl

/-! ## CLI flag post-processing (src/unnamed/part_000 lines 63-68) -/

/-- A parsed CLI flag value as meow produces it: a boolean, a string, or
(after processing) a string list. -/
inductive FVal where
  | boolv : Bool → FVal
  | strv : String → FVal
  | strList : List String → FVal
deriving DecidableEq, Repr

/-- JavaScript truthiness of a flag value. -/
def truthyFV : FVal → Bool
  | .boolv b => b
  | .strv s => s != ""
  | .strList _ => true

/-- The nested object `processFlags` builds: a tree whose inner nodes are
objects keyed by path segment and whose leaves are flag values. -/
inductive FTree where
  | leaf : FVal → FTree
  | node : List (String × FTree) → FTree

/-- First binding for a key in an object's field list (object keys are
unique, so first is the only one). -/
def assocFind : List (String × FTree) → String → Option FTree
  | [], _ => none
  | kv :: rest, k => if kv.1 == k then some kv.2 else assocFind rest k

/-- Replace the binding for a key in place, or append a new binding. -/
def assocSet : List (String × FTree) → String → FTree → List (String × FTree)
  | [], k, t => [(k, t)]
  | kv :: rest, k, t => if kv.1 == k then (k, t) :: rest else kv :: assocSet rest k t

/-- The field list of a tree viewed as an object (a primitive has no
fields). -/
def childrenOf : FTree → List (String × FTree)
  | .leaf _ => []
  | .node ch => ch

/-- The existing child at a key viewed as an object: lodash `set` walks
into an existing object child and replaces a missing or primitive child
with a fresh object. -/
def childAsObj (ch : List (String × FTree)) (k : String) : FTree :=
  match assocFind ch k with
  | some (.node ch2) => .node ch2
  | _ => .node []

/-- lodash `set(m, path, v)` for object paths: walk the path, creating or
replacing intermediate objects, and bind the last segment to the value.
The array-creation special case for integer-like path segments is not
exercised by CLI flag names and is not modelled. -/
def setPath : FTree → List String → FVal → FTree
  | t, [], _ => t
  | t, [k], v => .node (assocSet (childrenOf t) k (.leaf v))
  | t, k :: k2 :: rest, v =>
    .node (assocSet (childrenOf t) k (setPath (childAsObj (childrenOf t) k) (k2 :: rest) v))

/-- Lookup of a path in the nested object; returns the leaf value exactly
at the end of the path. -/
def lookupPath : FTree → List String → Option FVal
  | .leaf v, [] => some v
  | .node _, [] => none
  | .leaf _, _ :: _ => none
  | .node ch, k :: rest =>
    match assocFind ch k with
    | some t => lookupPath t rest
    | none => none

/-- Splitting a character list at every occurrence of a separator,
accumulator-based; always returns at least one piece, matching the
JavaScript `split` of a one-character separator. -/
def splitSepAux (sep : Char) : List Char → List Char → List String
  | [], acc => [String.mk acc.reverse]
  | c :: rest, acc =>
    if c = sep then String.mk acc.reverse :: splitSepAux sep rest []
    else splitSepAux sep rest (c :: acc)

/-- JavaScript `s.split(sep)` for a one-character separator. -/
def splitSep (sep : Char) (s : String) : List String := splitSepAux sep s.toList []

/-- The object path of a flag name: the dot-separated segments, matching
the path interpretation lodash `set` gives a dotted key. -/
def pathOf (k : String) : List String := splitSep '.' k

example : pathOf "deps.bump" = ["deps", "bump"] := by decide

example : pathOf "ignorePackages" = ["ignorePackages"] := by decide

/-- One step of `processFlags` (src/unnamed/part_000 lines 64-66): a truthy
`ignorePackages` value is split on commas before being set; every other
pair is set unchanged.  A truthy non-string `ignorePackages` would make
`v.split` throw in JavaScript, modelled as `none`. -/
def processFlag (m : FTree) (k : String) (v : FVal) : Option FTree :=
  if k == "ignorePackages" && truthyFV v then
    match v with
    | .strv s => some (setPath m (pathOf k) (.strList (splitSep ',' s)))
    | _ => none
  else
    some (setPath m (pathOf k) v)

/-- Embeds `processFlags` (src/unnamed/part_000 lines 63-68):
`toPairs(flags).reduce((m, [k, v]) => ..., {})` — fold the flag pairs over
an initially empty object with lodash `set`. -/
def processFlags (flags : List (String × FVal)) : Option FTree :=
  flags.foldlM (fun m kv => processFlag m kv.1 kv.2) (.node [])

/-- Whether two paths part ways at some shared index; setting one such path
cannot disturb a lookup of the other. -/
def diverges : List String → List String → Bool
  | a :: as, b :: bs => a != b || diverges as bs
  | _, _ => false

/-- A flag pair is well typed when an `ignorePackages` entry that is truthy
is a string (guaranteed by the meow flag declaration `type: "string"`). -/
def wfFlag (kv : String × FVal) : Bool :=
  if kv.1 == "ignorePackages" && truthyFV kv.2 then
    match kv.2 with
    | .strv _ => true
    | _ => false
  else
    true

/-- The value the claim expects to find at a flag's path: the comma-split
list for a truthy `ignorePackages` string, the original value otherwise. -/
def processedValue (k : String) (v : FVal) : FVal :=
  if k == "ignorePackages" && truthyFV v then
    match v with
    | .strv s => .strList (splitSep ',' s)
    | _ => v
  else
    v

theorem assocFind_assocSet_self :
    ∀ (ch : List (String × FTree)) (k : String) (t : FTree),
      assocFind (assocSet ch k t) k = some t := by
  intro ch
  induction ch with
  | nil => intro k t; simp [assocSet, assocFind]
  | cons kv rest ih =>
    intro k t
    by_cases hk : (kv.1 == k) = true
    · simp [assocSet, assocFind, hk]
    · have hk2 : (kv.1 == k) = false := by simpa using hk
      simp [assocSet, assocFind, hk2]
      exact ih k t

theorem assocFind_assocSet_ne (k a : String) (hne : a ≠ k) :
    ∀ (ch : List (String × FTree)) (t : FTree),
      assocFind (assocSet ch k t) a = assocFind ch a := by
  have hka : (k == a) = false := beq_eq_false_iff_ne.mpr (Ne.symm hne)
  intro ch
  induction ch with
  | nil =>
    intro t
    simp [assocSet, assocFind, hka]
  | cons kv rest ih =>
    intro t
    by_cases hk : (kv.1 == k) = true
    · have hkk : kv.1 = k := eq_of_beq hk
      have hk2 : (kv.1 == a) = false := by rw [hkk]; exact hka
      simp [assocSet, assocFind, hk, hka, hk2]
    · have hk2 : (kv.1 == k) = false := by simpa using hk
      by_cases ha : (kv.1 == a) = true
      · simp [assocSet, assocFind, hk2, ha]
      · have ha2 : (kv.1 == a) = false := by simpa using ha
        simp [assocSet, assocFind, hk2, ha2]
        exact ih t

theorem lookupPath_setPath_self :
    ∀ (p : List String) (t : FTree) (v : FVal), p ≠ [] →
      lookupPath (setPath t p v) p = some v := by
  intro p
  induction p with
  | nil => intro t v h; exact absurd rfl h
  | cons k rest ih =>
    intro t v _
    cases rest with
    | nil =>
      show lookupPath (.node (assocSet (childrenOf t) k (.leaf v))) [k] = some v
      simp [lookupPath, assocFind_assocSet_self]
    | cons k2 rest2 =>
      show lookupPath
          (.node (assocSet (childrenOf t) k
            (setPath (childAsObj (childrenOf t) k) (k2 :: rest2) v)))
          (k :: k2 :: rest2) = some v
      simp only [lookupPath, assocFind_assocSet_self]
      exact ih _ v (by simp)

theorem diverges_nil_right (p : List String) : diverges p [] = false := by
  cases p <;> rfl

theorem diverges_nil_left (q : List String) : diverges [] q = false := by
  cases q <;> rfl

theorem diverges_symm : ∀ p q : List String, diverges p q = diverges q p := by
  intro p
  induction p with
  | nil => intro q; cases q <;> rfl
  | cons a as ih =>
    intro q
    cases q with
    | nil => rfl
    | cons b bs =>
      show (a != b || diverges as bs) = (b != a || diverges bs as)
      rw [ih bs]
      by_cases hab : a = b
      · subst hab; rfl
      · have h1 : (a != b) = true := by simp [hab]
        have h2 : (b != a) = true := by
          simp only [bne_iff_ne, ne_eq]
          exact fun h => hab h.symm
        rw [h1, h2]

/-- A leaf never answers a lookup along a nonempty path, and neither does
an empty object. -/
theorem lookupPath_stub (p : List String) (hp : p ≠ []) :
    (∀ w, lookupPath (.leaf w) p = none) ∧ lookupPath (.node []) p = none := by
  cases p with
  | nil => exact absurd rfl hp
  | cons a rest => exact ⟨fun w => rfl, by simp [lookupPath, assocFind]⟩

theorem diverges_ne_nil (p q : List String) (h : diverges p q = true) : p ≠ [] ∧ q ≠ [] := by
  constructor
  · intro hp; subst hp; rw [diverges_nil_left] at h; cases h
  · intro hq; subst hq; rw [diverges_nil_right] at h; cases h

theorem lookupPath_setPath_diverge :
    ∀ (q p : List String) (t : FTree) (v : FVal), diverges p q = true →
      lookupPath (setPath t q v) p = lookupPath t p := by
  intro q
  induction q with
  | nil =>
    intro p t v hd
    rw [diverges_nil_right] at hd
    cases hd
  | cons k qrest ih =>
    intro p t v hd
    cases p with
    | nil => rw [diverges_nil_left] at hd; cases hd
    | cons a prest =>
      have hd2 : a ≠ k ∨ diverges prest qrest = true := by
        have : (a != k || diverges prest qrest) = true := hd
        rcases Bool.or_eq_true_iff.mp this with h | h
        · exact Or.inl (by simpa using h)
        · exact Or.inr h
      cases qrest with
      | nil =>
        have hak : a ≠ k := by
          rcases hd2 with h | h
          · exact h
          · rw [diverges_nil_right] at h; cases h
        have hne : (k == a) = false := beq_eq_false_iff_ne.mpr (Ne.symm hak)
        cases t with
        | leaf w =>
          show lookupPath (.node (assocSet (childrenOf (FTree.leaf w)) k (.leaf v)))
              (a :: prest) = lookupPath (.leaf w) (a :: prest)
          simp [childrenOf, assocSet, assocFind, lookupPath, hne]
        | node ch =>
          show lookupPath (.node (assocSet (childrenOf (FTree.node ch)) k (.leaf v)))
              (a :: prest) = lookupPath (.node ch) (a :: prest)
          simp only [childrenOf, lookupPath]
          rw [assocFind_assocSet_ne k a hak]
      | cons k2 qrest2 =>
        by_cases hak : a = k
        · subst hak
          have hdrest : diverges prest (k2 :: qrest2) = true := by
            rcases hd2 with h | h
            · exact absurd rfl h
            · exact h
          have hprest : prest ≠ [] := (diverges_ne_nil prest (k2 :: qrest2) hdrest).1
          cases t with
          | leaf w =>
            show lookupPath
                (.node (assocSet (childrenOf (FTree.leaf w)) a
                  (setPath (childAsObj (childrenOf (FTree.leaf w)) a) (k2 :: qrest2) v)))
                (a :: prest) = lookupPath (.leaf w) (a :: prest)
            simp only [childrenOf, lookupPath, assocSet, assocFind, beq_self_eq_true,
              if_true]
            rw [show childAsObj [] a = FTree.node [] from rfl,
              ih prest (FTree.node []) v hdrest]
            rw [(lookupPath_stub prest hprest).2]
          | node ch =>
            show lookupPath
                (.node (assocSet (childrenOf (FTree.node ch)) a
                  (setPath (childAsObj (childrenOf (FTree.node ch)) a) (k2 :: qrest2) v)))
                (a :: prest) = lookupPath (.node ch) (a :: prest)
            simp only [childrenOf, lookupPath, assocFind_assocSet_self]
            rw [ih prest (childAsObj ch a) v hdrest]
            cases hfind : assocFind ch a with
            | none =>
              rw [show childAsObj ch a = FTree.node [] by unfold childAsObj; rw [hfind]]
              exact (lookupPath_stub prest hprest).2
            | some t2 =>
              cases t2 with
              | node ch2 =>
                rw [show childAsObj ch a = FTree.node ch2 by unfold childAsObj; rw [hfind]]
              | leaf w2 =>
                rw [show childAsObj ch a = FTree.node [] by unfold childAsObj; rw [hfind]]
                rw [(lookupPath_stub prest hprest).2]
                exact ((lookupPath_stub prest hprest).1 w2).symm
        · have hne : (k == a) = false := beq_eq_false_iff_ne.mpr (Ne.symm hak)
          cases t with
          | leaf w =>
            show lookupPath
                (.node (assocSet (childrenOf (FTree.leaf w)) k
                  (setPath (childAsObj (childrenOf (FTree.leaf w)) k) (k2 :: qrest2) v)))
                (a :: prest) = lookupPath (.leaf w) (a :: prest)
            simp [childrenOf, assocSet, assocFind, lookupPath, hne]
          | node ch =>
            show lookupPath
                (.node (assocSet (childrenOf (FTree.node ch)) k
                  (setPath (childAsObj (childrenOf (FTree.node ch)) k) (k2 :: qrest2) v)))
                (a :: prest) = lookupPath (.node ch) (a :: prest)
            simp only [childrenOf, lookupPath]
            rw [assocFind_assocSet_ne k a hak]

theorem splitSepAux_ne_nil (sep : Char) :
    ∀ (l acc : List Char), splitSepAux sep l acc ≠ [] := by
  intro l
  induction l with
  | nil => intro acc; simp [splitSepAux]
  | cons c rest ih =>
    intro acc
    by_cases hc : c = sep <;> simp [splitSepAux, hc] <;> exact ih _

theorem pathOf_ne_nil (k : String) : pathOf k ≠ [] :=
  splitSepAux_ne_nil '.' k.toList []

theorem processFlag_eq (m : FTree) (k : String) (v : FVal) (h : wfFlag (k, v) = true) :
    processFlag m k v = some (setPath m (pathOf k) (processedValue k v)) := by
  by_cases hg : (k == "ignorePackages" && truthyFV v) = true
  · cases v with
    | strv s => simp [processFlag, processedValue, hg]
    | boolv b =>
      exfalso
      unfold wfFlag at h
      rw [if_pos hg] at h
      simp at h
    | strList l =>
      exfalso
      unfold wfFlag at h
      rw [if_pos hg] at h
      simp at h
  · have hg2 : (k == "ignorePackages" && truthyFV v) = false := by simpa using hg
    simp [processFlag, processedValue, hg2]

theorem processFlags_go :
    ∀ (flags : List (String × FVal)) (m0 : FTree),
      flags.Pairwise (fun x y => diverges (pathOf x.1) (pathOf y.1) = true) →
      (∀ kv ∈ flags, wfFlag kv = true) →
      ∃ m, List.foldlM (fun m kv => processFlag m kv.1 kv.2) m0 flags = some m ∧
        (∀ kv ∈ flags, lookupPath m (pathOf kv.1) = some (processedValue kv.1 kv.2)) ∧
        (∀ p : List String, (∀ kv ∈ flags, diverges p (pathOf kv.1) = true) →
          lookupPath m p = lookupPath m0 p) := by
  intro flags
  induction flags with
  | nil =>
    intro m0 _ _
    exact ⟨m0, rfl, by simp, fun p _ => rfl⟩
  | cons kv rest ih =>
    intro m0 hpw hwf
    have hpw2 := List.pairwise_cons.mp hpw
    have hstep : processFlag m0 kv.1 kv.2
        = some (setPath m0 (pathOf kv.1) (processedValue kv.1 kv.2)) :=
      processFlag_eq m0 kv.1 kv.2 (hwf kv (List.mem_cons_self _ _))
    rcases ih (setPath m0 (pathOf kv.1) (processedValue kv.1 kv.2)) hpw2.2
        (fun x hx => hwf x (List.mem_cons_of_mem _ hx)) with ⟨m, hfold, hmem, hframe⟩
    refine ⟨m, ?_, ?_, ?_⟩
    · show (processFlag m0 kv.1 kv.2) >>= (fun y =>
        List.foldlM (fun m kv => processFlag m kv.1 kv.2) y rest) = some m
      rw [hstep]
      exact hfold
    · intro x hx
      rcases List.mem_cons.mp hx with rfl | hx2
      · rw [hframe (pathOf x.1) (fun y hy => hpw2.1 y hy)]
        exact lookupPath_setPath_self (pathOf x.1) m0 _ (pathOf_ne_nil _)
      · exact hmem x hx2
    · intro p hdiv
      rw [hframe p (fun y hy => hdiv y (List.mem_cons_of_mem _ hy))]
      exact lookupPath_setPath_diverge (pathOf kv.1) p m0 _ (hdiv kv (List.mem_cons_self _ _))

/-- C10: for a parsed CLI flag set (pairwise non-conflicting dotted names,
with `ignorePackages` string-typed as meow declares), `processFlags`
succeeds and nests every dotted flag name into sub-objects, splits a
truthy `ignorePackages` string on commas into a string list, and passes
every other flag value through unchanged at its path. -/
theorem C10_processFlags (flags : List (String × FVal)) (k : String) (v : FVal)
    (hpw : flags.Pairwise (fun x y => diverges (pathOf x.1) (pathOf y.1) = true))
    (hwf : ∀ kv ∈ flags, wfFlag kv = true)
    (hin : (k, v) ∈ flags) :
    ∃ m, processFlags flags = some m ∧
      lookupPath m (pathOf k) = some (processedValue k v) := by
  rcases processFlags_go flags (.node []) hpw hwf with ⟨m, hfold, hmem, _⟩
  exact ⟨m, hfold, hmem (k, v) hin⟩

/-- The flag set of the CLI examples: the deps policies, an ignore list and
a boolean, in meow's insertion order. -/
def exampleFlags : List (String × FVal) :=
  [("deps.bump", .strv "override"),
   ("deps.release", .strv "patch"),
   ("ignorePackages", .strv "packages/a,packages/b"),
   ("dryRun", .boolv true)]

example :
    (processFlags exampleFlags).bind (fun m => lookupPath m ["deps", "bump"]) =
      some (.strv "override") := by decide

example :
    (processFlags exampleFlags).bind (fun m => lookupPath m ["ignorePackages"]) =
      some (.strList ["packages/a", "packages/b"]) := by decide

/-! ## Lemmas about option lookup -/

/-- The first defined of two lookup results. -/
def firstSome {α : Type} : Option α → Option α → Option α
  | some v, _ => some v
  | none, y => y

theorem olookup_append (a b : List (String × String)) (k : String) :
    olookup (a ++ b) k = firstSome (olookup b k) (olookup a k) := by
  induction a with
  | nil => cases h : olookup b k <;> simp [olookup, firstSome, h]
  | cons kv rest ih =>
    show olookup (kv :: (rest ++ b)) k = _
    rw [olookup, ih]
    cases h : olookup b k <;> cases h2 : olookup rest k <;> simp [olookup, firstSome, h2]

theorem rlookup_append (a b : List (String × RVal)) (k : String) :
    rlookup (a ++ b) k = firstSome (rlookup b k) (rlookup a k) := by
  induction a with
  | nil => cases h : rlookup b k <;> simp [rlookup, firstSome, h]
  | cons kv rest ih =>
    show rlookup (kv :: (rest ++ b)) k = _
    rw [rlookup, ih]
    cases h : rlookup b k <;> cases h2 : rlookup rest k <;> simp [rlookup, firstSome, h2]

theorem rlookup_mapStr (l : List (String × String)) (k : String) :
    rlookup (l.map (fun kv => (kv.1, RVal.str kv.2))) k = (olookup l k).map RVal.str := by
  induction l with
  | nil => simp [rlookup, olookup]
  | cons kv rest ih =>
    rw [List.map_cons, rlookup, ih, olookup]
    cases h : olookup rest k
    · simp only [Option.map_none]
      by_cases hk : kv.1 == k <;> simp [hk]
    · simp

/-- A lookup in the final option object for a key other than the two keys
forced afterwards reduces to a lookup in the spread. -/
theorem rlookup_releaseOptions (pkg : Package) (flags inlinePlugin : List (String × String))
    (k : String) (hk1 : k ≠ "tagFormat") (hk2 : k ≠ "_pkgOptions") :
    rlookup (releaseOptions pkg flags inlinePlugin) k =
      (olookup (flags ++ pkg.options ++ inlinePlugin) k).map RVal.str := by
  unfold releaseOptions
  rw [rlookup_append, rlookup_append]
  have h1 : rlookup [("tagFormat", RVal.str (pkg.name ++ "@${version}"))] k = none := by
    have : ("tagFormat" == k) = false := by
      simp only [beq_eq_false_iff_ne]
      exact fun h => hk1 h.symm
    simp [rlookup, this]
  have h2 : rlookup [("_pkgOptions", RVal.obj pkg.options)] k = none := by
    have : ("_pkgOptions" == k) = false := by
      simp only [beq_eq_false_iff_ne]
      exact fun h => hk2 h.symm
    simp [rlookup, this]
  rw [h1, h2, rlookup_mapStr]
  simp [firstSome]

/-! ## Claim theorems -/

/-- C3: after graph building, a package's `localDeps` contains exactly the
loaded package records whose name equals one of the package's declared
dependency names, with no duplicates; names that match no loaded package
never appear. -/
theorem C3_localDeps_exact (packages : List Package) (pkg q : Package)
    (hnodup : (packages.map Package.name).Nodup) :
    (q ∈ localDeps packages pkg ↔ q ∈ packages ∧ q.name ∈ pkg.deps) ∧
      (localDeps packages pkg).Nodup :=
  ⟨mem_localDeps_iff packages pkg q hnodup, nodup_uniq _⟩

/-- Witness for C3 at a concrete two-package set. -/
theorem C3_localDeps_exact_witness :
    (pkgA ∈ localDeps [pkgA, pkgB] pkgB ↔ pkgA ∈ [pkgA, pkgB] ∧ pkgA.name ∈ pkgB.deps) ∧
      (localDeps [pkgA, pkgB] pkgB).Nodup :=
  C3_localDeps_exact [pkgA, pkgB] pkgB pkgA (by decide)

/-- A package that names itself among its dependencies. -/
def pkgSelf : Package := ⟨"s", ["s"], []⟩

/-- C9: a package whose manifest lists its own name among its dependency
names appears in its own `localDeps` — the resolution step does not
exclude the package being resolved. -/
theorem C9_self_edge (packages : List Package) (pkg : Package)
    (hnodup : (packages.map Package.name).Nodup) (hmem : pkg ∈ packages)
    (hself : pkg.name ∈ pkg.deps) : pkg ∈ localDeps packages pkg :=
  (mem_localDeps_iff packages pkg pkg hnodup).mpr ⟨hmem, hself⟩

/-- Witness for C9 at a concrete self-depending package. -/
theorem C9_self_edge_witness : pkgSelf ∈ localDeps [pkgSelf] pkgSelf :=
  C9_self_edge [pkgSelf] pkgSelf (by decide) (by decide) (by decide)

/-- The merge the claim C4 describes, following the spec's words: global,
then per-unit, then run-time flags, with precedence flags over per-unit
over global (later layers shadow earlier ones). -/
def c4SpecMerge (globalOptions perUnit flags : List (String × String)) :
    List (String × String) :=
  globalOptions ++ perUnit ++ flags

/-- A package whose resolved per-unit options bind the probe key. -/
def pkgK : Package := ⟨"pkg-k", [], [("k", "fromPkg")]⟩

/-- C4 counterexample: with a per-unit option and a flag binding the same
key, the option set handed to the engine keeps the per-unit value
(the spread `{ ...flags, ...pkgOptions, ...inlinePlugin }` lets package
options override flags), while the claimed precedence flags over per-unit
would keep the flag value. -/
theorem C4_counterexample :
    rlookup (releaseOptions pkgK [("k", "fromFlags")] []) "k" = some (.str "fromPkg") ∧
      olookup (c4SpecMerge [] [("k", "fromPkg")] [("k", "fromFlags")]) "k" = some "fromFlags" ∧
      RVal.str "fromPkg" ≠ RVal.str "fromFlags" := by
  refine ⟨rfl, rfl, by decide⟩

/-- C4 (amended): the option set the pipeline is invoked with is assembled
once per unit as the spread of run-time flags, then the per-unit resolved
options (themselves global options overridden by package-specific options
overridden by input options), then the inline plugin — so precedence is
inline plugin over input over package-specific over global over flags —
with `tagFormat` and `_pkgOptions` forced afterwards. -/
theorem C4_amended_precedence (name : String) (deps : List String)
    (globalOptions pkgSpecificOptions inputOptions flags inlinePlugin : List (String × String))
    (k : String) (hk1 : k ≠ "tagFormat") (hk2 : k ≠ "_pkgOptions") :
    rlookup
        (releaseOptions ⟨name, deps, getPackageOptions globalOptions pkgSpecificOptions inputOptions⟩
          flags inlinePlugin) k
      = (olookup (flags ++ (globalOptions ++ pkgSpecificOptions ++ inputOptions) ++ inlinePlugin) k).map
          RVal.str := by
  rw [rlookup_releaseOptions _ _ _ _ hk1 hk2]
  rfl

/-- Witness for the amended C4 at concrete layers: the input options beat
the package-specific options, which beat the global options, which beat the
flags. -/
theorem C4_amended_precedence_witness :
    rlookup
        (releaseOptions ⟨"n", [], getPackageOptions [("k", "g")] [("k", "p")] [("k", "i")]⟩
          [("k", "f")] []) "k"
      = (olookup ([("k", "f")] ++ ([("k", "g")] ++ [("k", "p")] ++ [("k", "i")]) ++ []) "k").map
          RVal.str :=
  C4_amended_precedence "n" [] [("k", "g")] [("k", "p")] [("k", "i")] [("k", "f")] []
    "k" (by decide) (by decide)

/-- C5: after all merging, the `tagFormat` option handed to the engine is
forced to the package name followed by the version slot, whatever
`tagFormat` the flags, per-unit options or inline plugin supplied; so a
unit named pkg-a releasing 1.2.0 is tagged pkg-a@1.2.0 and never a bare
1.2.0. -/
theorem C5_tag_format (pkg : Package) (flags inlinePlugin : List (String × String)) :
    rlookup (releaseOptions pkg flags inlinePlugin) "tagFormat"
        = some (.str (pkg.name ++ "@${version}")) ∧
      renderTag ("pkg-a" ++ "@${version}") "1.2.0" = "pkg-a@1.2.0" ∧
      (renderTag ("pkg-a" ++ "@${version}") "1.2.0" == "1.2.0") = false := by
  refine ⟨?_, by decide, by decide⟩
  unfold releaseOptions
  rw [rlookup_append, rlookup_append]
  have h2 : rlookup [("_pkgOptions", RVal.obj pkg.options)] "tagFormat" = none := rfl
  rw [h2]
  have h1 : rlookup [("tagFormat", RVal.str (pkg.name ++ "@${version}"))] "tagFormat"
      = some (RVal.str (pkg.name ++ "@${version}")) := by
    simp [rlookup]
  rw [h1]
  simp [firstSome]

/-- Whether an argument was left out entirely. -/
def isUndef : JSV → Bool
  | .undef => true
  | _ => false

/-- The error condition exactly as claim C6 states it: a fatal error iff
neither a paths list nor a packageManifests list is supplied, or a supplied
value fails its shape contract.  Following the claim's words, "supplied"
reads as "given a value", i.e. not undefined. -/
def c6ClaimCond (paths packageManifests : JSV) (s : Settings) : Bool :=
  (isUndef paths && isUndef packageManifests)
    || (!(isUndef paths) && !(isStringArray paths))
    || (!(isUndef packageManifests) && !(isObjectlikeArray packageManifests))
    || !s.cwdIsDirectory || !s.envIsObjectlike || !s.stdoutIsStream || !s.stderrIsStream

/-- C6 counterexample: a supplied but falsy `paths` (the empty string) with
a valid manifest list raises no error at all — the guard
`paths && check(paths, ...)` skips the shape check on falsy values — while
the claim's condition (a supplied value failing its shape contract)
demands one. -/
theorem C6_counterexample :
    isErr (validateArgs (.strv "") (.arrv [.objv []]) okSettings) = false ∧
      c6ClaimCond (.strv "") (.arrv [.objv []]) okSettings = true ∧
      isErr (validateArgs (.strv "") (.arrv [.objv []]) okSettings)
        ≠ c6ClaimCond (.strv "") (.arrv [.objv []]) okSettings := by
  refine ⟨rfl, rfl, by decide⟩

/-- The corrected error condition: the checks apply JavaScript truthiness,
so a falsy supplied value is treated as absent rather than shape-checked,
and the presence requirement is that at least one argument be truthy. -/
def c6AmendedCond (paths packageManifests : JSV) (s : Settings) : Bool :=
  (truthy paths && !(isStringArray paths))
    || (truthy packageManifests && !(isObjectlikeArray packageManifests))
    || (!(truthy paths) && !(truthy packageManifests))
    || !s.cwdIsDirectory || !s.envIsObjectlike || !s.stdoutIsStream || !s.stderrIsStream

theorem validateArgs_isErr (paths packageManifests : JSV) (s : Settings) :
    isErr (validateArgs paths packageManifests s) = c6AmendedCond paths packageManifests s := by
  obtain ⟨c, e, o, r⟩ := s
  unfold validateArgs c6AmendedCond
  cases hp : truthy paths <;> cases hsp : isStringArray paths <;>
    cases hm : truthy packageManifests <;> cases hsm : isObjectlikeArray packageManifests <;>
    cases c <;> cases e <;> cases o <;> cases r <;>
    simp [isErr]

theorem validateArgs_config (paths packageManifests : JSV) (s : Settings) (e : RunError)
    (h : validateArgs paths packageManifests s = .error e) : ∃ msg, e = .configError msg := by
  unfold validateArgs at h
  repeat' split at h
  all_goals first
    | exact ⟨_, (Except.error.injEq _ _).mp h |>.symm⟩
    | cases h

theorem msrRun_no_configError (flags : Flags) (engine : Engine) (packages : List Package)
    (msg : String) : (msrRun flags engine packages).2 ≠ .error (.configError msg) := by
  unfold msrRun
  split
  · intro h
    simp at h
  · cases hf : List.findSome? (fun t => t.2.failure)
        (packages.map (fun p => (p, packageTask flags engine p))) <;>
      simp [hf]

/-- C6 (amended): `multiSemanticRelease` raises a fatal configuration error
before any package is loaded and before any task starts iff both `paths`
and `packageManifests` are falsy, or a truthy `paths` is not a string
list, or a truthy `packageManifests` is not an object list, or
cwd/env/stdout/stderr fail their shape checks; a supplied falsy value is
treated as absent. -/
theorem C6_amended_validation (paths packageManifests : JSV) (s : Settings) (flags : Flags)
    (engine : Engine) (loaded : List Package) :
    (isErr (validateArgs paths packageManifests s) = c6AmendedCond paths packageManifests s) ∧
      ((∃ msg, (multiSemanticRelease paths packageManifests s flags engine loaded).2
          = .error (.configError msg)) ↔ c6AmendedCond paths packageManifests s = true) ∧
      (c6AmendedCond paths packageManifests s = true →
        (multiSemanticRelease paths packageManifests s flags engine loaded).1 = []) := by
  refine ⟨validateArgs_isErr paths packageManifests s, ?_, ?_⟩
  · constructor
    · rintro ⟨msg, hmsg⟩
      unfold multiSemanticRelease at hmsg
      rw [← validateArgs_isErr paths packageManifests s]
      cases hv : validateArgs paths packageManifests s with
      | error e => simp [isErr]
      | ok u =>
        rw [hv] at hmsg
        exact absurd hmsg (msrRun_no_configError flags engine loaded msg)
    · intro hcond
      have hv := validateArgs_isErr paths packageManifests s
      rw [hcond] at hv
      unfold multiSemanticRelease
      cases he : validateArgs paths packageManifests s with
      | error e =>
        rcases validateArgs_config paths packageManifests s e he with ⟨msg, rfl⟩
        exact ⟨msg, rfl⟩
      | ok u => rw [he] at hv; simp [isErr] at hv
  · intro hcond
    have hv := validateArgs_isErr paths packageManifests s
    rw [hcond] at hv
    unfold multiSemanticRelease
    cases he : validateArgs paths packageManifests s with
    | error e => rfl
    | ok u => rw [he] at hv; simp [isErr] at hv

/-! ## Task-level lemmas -/

/-- The write events an engine outcome produces for a package: none on a
rejection, one assignment otherwise. -/
def writeEvs (engine : Engine) (pkg : Package) : List Ev :=
  match engine pkg.name with
  | .rejected _ => []
  | .noRelease => [.writeResult pkg.name none]
  | .released o => [.writeResult pkg.name (some o)]

theorem releasePackage_events (engine : Engine) (pkg : Package) :
    (releasePackage engine pkg).events = .invokePipeline pkg.name :: writeEvs engine pkg := by
  unfold releasePackage writeEvs
  cases engine pkg.name <;> rfl

theorem packageTask_failure (flags : Flags) (engine : Engine) (pkg : Package) :
    (packageTask flags engine pkg).failure
      = match engine pkg.name with | .rejected e => some e | _ => none := by
  cases hs : flags.sequentialInit <;> cases he : engine pkg.name <;>
    simp [packageTask, releasePackage, hs, he]

theorem packageTask_result (flags : Flags) (engine : Engine) (pkg : Package) :
    (packageTask flags engine pkg).result
      = match engine pkg.name with
        | .rejected _ => none
        | .noRelease => some none
        | .released o => some (some o) := by
  cases hs : flags.sequentialInit <;> cases he : engine pkg.name <;>
    simp [packageTask, releasePackage, hs, he]

theorem packageTask_events (flags : Flags) (engine : Engine) (pkg : Package) :
    (packageTask flags engine pkg).events
      = (if flags.sequentialInit then
            [Ev.getLuckySignal readyForRelease pkg.name,
             Ev.waitForSignal readyForRelease pkg.name]
          else [])
        ++ Ev.invokePipeline pkg.name :: writeEvs engine pkg := by
  cases hs : flags.sequentialInit <;> cases he : engine pkg.name <;>
    simp [packageTask, releasePackage, writeEvs, hs, he]

/-- How many times the run assigns the `result` field of the package with
the given name. -/
def writeCount (n : String) (evs : List Ev) : Nat :=
  (evs.filter (fun e => match e with | .writeResult m _ => m == n | _ => false)).length

theorem writeCount_append (n : String) (a b : List Ev) :
    writeCount n (a ++ b) = writeCount n a + writeCount n b := by
  simp [writeCount, List.filter_append]

theorem writeCount_nonwrite (n : String) (evs : List Ev)
    (h : ∀ e ∈ evs, ∀ m v, e ≠ Ev.writeResult m v) : writeCount n evs = 0 := by
  unfold writeCount
  rw [List.length_eq_zero]
  apply List.filter_eq_nil_iff.mpr
  intro e he
  cases e <;> simp
  case writeResult m v =>
    exact absurd rfl (h _ he m v)

theorem writeCount_task (flags : Flags) (engine : Engine) (q : Package) (n : String) :
    writeCount n (packageTask flags engine q).events
      = if q.name = n ∧ (engine q.name).isRejected = false then 1 else 0 := by
  by_cases hq : q.name = n
  · subst hq
    cases hs : flags.sequentialInit <;> cases he : engine q.name <;>
      simp [packageTask, releasePackage, writeCount, EngineResult.isRejected, hs, he]
  · have hb : (q.name == n) = false := by simp [hq]
    cases hs : flags.sequentialInit <;> cases he : engine q.name <;>
      simp [packageTask, releasePackage, writeCount, EngineResult.isRejected, hs, he, hb, hq]

theorem writeResult_mem_task (flags : Flags) (engine : Engine) (q : Package)
    (n : String) (v : Option String)
    (h : Ev.writeResult n v ∈ (packageTask flags engine q).events) :
    n = q.name ∧ v = (match engine q.name with | .released o => some o | _ => none) := by
  rw [packageTask_events] at h
  rcases List.mem_append.mp h with h | h
  · cases hs : flags.sequentialInit <;> rw [hs] at h <;> simp at h
  · rcases List.mem_cons.mp h with h | h
    · exact absurd h (by simp)
    · unfold writeEvs at h
      cases he : engine q.name with
      | rejected e => rw [he] at h; simp at h
      | noRelease =>
        rw [he] at h
        simp at h
        exact ⟨h.1, h.2⟩
      | released o =>
        rw [he] at h
        simp at h
        exact ⟨h.1, h.2⟩

/-! ## Run-level lemmas -/

theorem findSome?_failure_none (flags : Flags) (engine : Engine) :
    ∀ l : List Package, (∀ p ∈ l, (engine p.name).isRejected = false) →
      (l.map (fun p => (p, packageTask flags engine p))).findSome? (fun t => t.2.failure)
        = none := by
  intro l
  induction l with
  | nil => intro _; rfl
  | cons q rest ih =>
    intro h
    have hq : (packageTask flags engine q).failure = none := by
      rw [packageTask_failure]
      have hr := h q (List.mem_cons_self q rest)
      cases he : engine q.name <;> rw [he] at hr <;>
        simp [EngineResult.isRejected] at hr ⊢
    rw [List.map_cons, List.findSome?_cons, hq]
    exact ih (fun p hp => h p (List.mem_cons_of_mem _ hp))

theorem findSome?_failure_some (flags : Flags) (engine : Engine) :
    ∀ l : List Package, (∃ p ∈ l, (engine p.name).isRejected = true) →
      ∃ e, (l.map (fun p => (p, packageTask flags engine p))).findSome? (fun t => t.2.failure)
        = some e := by
  intro l
  induction l with
  | nil => rintro ⟨p, hp, _⟩; cases hp
  | cons q rest ih =>
    rintro ⟨p, hp, hrej⟩
    rw [List.map_cons, List.findSome?_cons]
    cases hq : (packageTask flags engine q).failure with
    | some e => exact ⟨e, rfl⟩
    | none =>
      rcases List.mem_cons.mp hp with rfl | hp'
      · rw [packageTask_failure] at hq
        cases he : engine p.name <;> rw [he] at hq hrej <;>
          simp [EngineResult.isRejected] at hq hrej
      · exact ih ⟨p, hp', hrej⟩

/-- The run in the success case: propagating that no task rejected. -/
theorem msrRun_success_eq (flags : Flags) (engine : Engine) (packages : List Package)
    (hnc : (flags.sequentialPrepare && isCyclicProject packages) = false)
    (hf : (packages.map (fun p => (p, packageTask flags engine p))).findSome?
        (fun t => t.2.failure) = none) :
    msrRun flags engine packages =
      (packages.map (fun p => Ev.loadedPackage p.name)
          ++ [Ev.queuedPackages packages.length, Ev.createSynchronizer]
          ++ ((packages.map (fun p => (p, packageTask flags engine p))).map
              (fun t => t.2.events)).flatten
          ++ [Ev.logReleased
              ((packages.map (fun p => (p, packageTask flags engine p))).filter
                (fun t => resultTruthy t.2.result)).length packages.length],
       .ok ⟨(packages.map (fun p => (p, packageTask flags engine p))).map
              (fun t => (t.1, t.2.result)),
            ((packages.map (fun p => (p, packageTask flags engine p))).filter
              (fun t => resultTruthy t.2.result)).length⟩) := by
  unfold msrRun
  rw [hnc]
  simp only [Bool.false_eq_true, if_false, hf, List.append_assoc]

/-- The run in the failure case: some task rejected. -/
theorem msrRun_failure_eq (flags : Flags) (engine : Engine) (packages : List Package)
    (e : String)
    (hnc : (flags.sequentialPrepare && isCyclicProject packages) = false)
    (hf : (packages.map (fun p => (p, packageTask flags engine p))).findSome?
        (fun t => t.2.failure) = some e) :
    msrRun flags engine packages =
      (packages.map (fun p => Ev.loadedPackage p.name)
          ++ [Ev.queuedPackages packages.length, Ev.createSynchronizer]
          ++ ((packages.map (fun p => (p, packageTask flags engine p))).map
              (fun t => t.2.events)).flatten,
       .error (.pipelineError e)) := by
  unfold msrRun
  rw [hnc]
  simp only [Bool.false_eq_true, if_false, hf, List.append_assoc]

/-- The run trace when the cycle guard does not fire: the load and queue
events, then the concatenated task events, then at most a summary log. -/
theorem msrRun_trace (flags : Flags) (engine : Engine) (packages : List Package)
    (hnc : (flags.sequentialPrepare && isCyclicProject packages) = false) :
    ∃ tail : List Ev,
      (msrRun flags engine packages).1 =
        packages.map (fun p => Ev.loadedPackage p.name)
          ++ [Ev.queuedPackages packages.length, Ev.createSynchronizer]
          ++ (packages.map (fun p => (packageTask flags engine p).events)).flatten
          ++ tail ∧
      (∀ e ∈ tail, ∃ r t, e = Ev.logReleased r t) := by
  have hmm : ((packages.map (fun p => (p, packageTask flags engine p))).map
      (fun t => t.2.events)) = packages.map (fun p => (packageTask flags engine p).events) := by
    rw [List.map_map]
    rfl
  cases hf : (packages.map (fun p => (p, packageTask flags engine p))).findSome?
      (fun t => t.2.failure) with
  | none =>
    refine ⟨[Ev.logReleased
        ((packages.map (fun p => (p, packageTask flags engine p))).filter
          (fun t => resultTruthy t.2.result)).length packages.length], ?_, ?_⟩
    · rw [msrRun_success_eq flags engine packages hnc hf, hmm]
    · intro e he
      rcases List.mem_singleton.mp he with rfl
      exact ⟨_, _, rfl⟩
  | some e =>
    refine ⟨[], ?_, ?_⟩
    · rw [msrRun_failure_eq flags engine packages e hnc hf, hmm]
      simp
    · intro e he
      cases he

theorem writeCount_flatten (flags : Flags) (engine : Engine) (n : String) :
    ∀ l : List Package,
      writeCount n ((l.map (fun p => (packageTask flags engine p).events)).flatten)
        = (l.filter (fun q => q.name == n && !(engine q.name).isRejected)).length := by
  intro l
  induction l with
  | nil => simp [writeCount]
  | cons q rest ih =>
    rw [List.map_cons, List.flatten_cons, writeCount_append, ih, writeCount_task,
      List.filter_cons]
    by_cases hq : q.name = n
    · have hb : (q.name == n) = true := by simp [hq]
      cases hr : (engine q.name).isRejected <;> simp [hq, hb, hr] <;> omega
    · have hb : (q.name == n) = false := by simp [hq]
      simp [hq, hb]

theorem filter_name_count (engine : Engine) :
    ∀ (l : List Package) (p : Package), (l.map Package.name).Nodup → p ∈ l →
      (l.filter (fun q => q.name == p.name && !(engine q.name).isRejected)).length
        = if (engine p.name).isRejected then 0 else 1 := by
  intro l
  induction l with
  | nil => intro p _ hp; cases hp
  | cons q rest ih =>
    intro p hn hp
    have hn2 : q.name ∉ rest.map Package.name ∧ (rest.map Package.name).Nodup := by
      rw [List.map_cons] at hn
      exact List.nodup_cons.mp hn
    rcases List.mem_cons.mp hp with rfl | hp2
    · have hrest : rest.filter (fun r => r.name == p.name && !(engine r.name).isRejected)
          = [] := by
        apply List.filter_eq_nil_iff.mpr
        intro r hr hcontra
        have h1 : (r.name == p.name) = true := ((Bool.and_eq_true _ _).mp hcontra).1
        have h2 : p.name ∈ rest.map Package.name := by
          rw [← eq_of_beq h1]
          exact List.mem_map_of_mem _ hr
        exact hn2.1 h2
      rw [List.filter_cons, hrest]
      cases hrej : (engine p.name).isRejected <;> simp [hrej]
    · have hq : (q.name == p.name) = false := by
        apply beq_eq_false_iff_ne.mpr
        intro heq
        apply hn2.1
        rw [heq]
        exact List.mem_map_of_mem _ hp2
      rw [List.filter_cons]
      simp only [hq, Bool.false_and, List.length_cons]
      simpa using ih p hn2.2 hp2

/-- A member's contribution appears as one contiguous segment of the
concatenation of all members' event lists. -/
theorem flatten_segment {α β : Type} (f : β → List α) :
    ∀ (l : List β) (p : β), p ∈ l →
      ∃ pre post, (l.map f).flatten = pre ++ (f p ++ post) := by
  intro l
  induction l with
  | nil => intro p hp; cases hp
  | cons q rest ih =>
    intro p hp
    rcases List.mem_cons.mp hp with rfl | hp2
    · exact ⟨[], (rest.map f).flatten, by simp⟩
    · rcases ih p hp2 with ⟨pre, post, h⟩
      refine ⟨f q ++ pre, post, ?_⟩
      rw [List.map_cons, List.flatten_cons, h]
      simp [List.append_assoc]

theorem msrRun_no_cyclic (flags : Flags) (engine : Engine) (packages : List Package)
    (hnc : (flags.sequentialPrepare && isCyclicProject packages) = false) :
    (msrRun flags engine packages).2 ≠ .error .cyclicError := by
  cases hf : (packages.map (fun p => (p, packageTask flags engine p))).findSome?
      (fun t => t.2.failure) with
  | none => rw [msrRun_success_eq flags engine packages hnc hf]; simp
  | some e => rw [msrRun_failure_eq flags engine packages e hnc hf]; simp

/-! ## Claims about the orchestrator run -/

/-- Whether the run's trace contains the released-count summary log. -/
def hasSummaryLog (evs : List Ev) : Bool :=
  evs.any (fun e => match e with | .logReleased _ _ => true | _ => false)

/-- C1 counterexample: a run whose single package's pipeline rejects makes
the whole run reject — `Promise.all` settles with the rejection — so no
package list is returned and no released-count summary is logged, though
the task did run. -/
theorem C1_counterexample :
    (msrRun flagsNone engineBoom [pkgA]).2 = .error (.pipelineError "boom") ∧
      isErr (msrRun flagsNone engineBoom [pkgA]).2 = true ∧
      hasSummaryLog (msrRun flagsNone engineBoom [pkgA]).1 = false ∧
      Ev.invokePipeline "a" ∈ (msrRun flagsNone engineBoom [pkgA]).1 := by
  refine ⟨rfl, rfl, rfl, ?_⟩
  rw [show (msrRun flagsNone engineBoom [pkgA]).1
      = [Ev.loadedPackage "a", Ev.queuedPackages 1, Ev.createSynchronizer,
         Ev.invokePipeline "a"] from rfl]
  simp

/-- C1 (amended): when any package's pipeline rejects, `multiSemanticRelease`
rejects with that pipeline error instead of returning the package list;
when no pipeline rejects, the run returns the full package list with every
`result` populated and logs how many of N packages released. -/
theorem C1_amended_settlement (flags : Flags) (engine : Engine) (packages : List Package)
    (hnc : (flags.sequentialPrepare && isCyclicProject packages) = false) :
    ((∀ p ∈ packages, (engine p.name).isRejected = false) →
      ∃ out : RunOutput, (msrRun flags engine packages).2 = .ok out ∧
        out.packages.length = packages.length ∧
        (∀ pr ∈ out.packages, pr.2 ≠ none) ∧
        Ev.logReleased out.released packages.length ∈ (msrRun flags engine packages).1) ∧
    ((∃ p ∈ packages, (engine p.name).isRejected = true) →
      ∃ e, (msrRun flags engine packages).2 = .error (.pipelineError e)) := by
  constructor
  · intro hok
    have hf := findSome?_failure_none flags engine packages hok
    rw [msrRun_success_eq flags engine packages hnc hf]
    refine ⟨_, rfl, by simp, ?_, ?_⟩
    · intro pr hpr
      rcases List.mem_map.mp hpr with ⟨t, ht, rfl⟩
      rcases List.mem_map.mp ht with ⟨p, hp, rfl⟩
      rw [packageTask_result]
      have hr := hok p hp
      cases he : engine p.name <;> rw [he] at hr <;>
        simp [EngineResult.isRejected] at hr ⊢
    · simp
  · rintro ⟨p, hp, hrej⟩
    rcases findSome?_failure_some flags engine packages ⟨p, hp, hrej⟩ with ⟨e, hf⟩
    rw [msrRun_failure_eq flags engine packages e hnc hf]
    exact ⟨e, rfl⟩

/-- Witness for the amended C1: a clean two-package run returns both
results and logs the summary. -/
theorem C1_amended_settlement_witness :
    ∃ out : RunOutput, (msrRun flagsNone engineGood [pkgA, pkgB]).2 = .ok out ∧
      out.packages.length = [pkgA, pkgB].length ∧
      (∀ pr ∈ out.packages, pr.2 ≠ none) ∧
      Ev.logReleased out.released [pkgA, pkgB].length
        ∈ (msrRun flagsNone engineGood [pkgA, pkgB]).1 :=
  (C1_amended_settlement flagsNone engineGood [pkgA, pkgB] rfl).1 (fun _ _ => rfl)

/-- C2: with sequentialPrepare enabled on a cyclic local-dependency graph
the run fails with the cyclic-dependency error before the synchronizer is
created and before any release pipeline is invoked; without
sequentialPrepare no cycle check happens and the cyclic error never
occurs — the run always reaches the release phase. -/
theorem C2_cycle_guard (flags : Flags) (engine : Engine) (packages : List Package) :
    (flags.sequentialPrepare = true → isCyclicProject packages = true →
      (msrRun flags engine packages).2 = .error .cyclicError ∧
        Ev.createSynchronizer ∉ (msrRun flags engine packages).1 ∧
        (∀ n, Ev.invokePipeline n ∉ (msrRun flags engine packages).1)) ∧
    (flags.sequentialPrepare = false →
      (msrRun flags engine packages).2 ≠ .error .cyclicError ∧
        Ev.createSynchronizer ∈ (msrRun flags engine packages).1) := by
  constructor
  · intro hsp hcy
    have htrue : (flags.sequentialPrepare && isCyclicProject packages) = true := by
      rw [hsp, hcy]
      rfl
    have heq : msrRun flags engine packages
        = (packages.map (fun p => Ev.loadedPackage p.name), .error .cyclicError) := by
      unfold msrRun
      rw [htrue]
      rfl
    rw [heq]
    refine ⟨rfl, ?_, ?_⟩
    · intro h
      rcases List.mem_map.mp h with ⟨p, _, hbad⟩
      cases hbad
    · intro n h
      rcases List.mem_map.mp h with ⟨p, _, hbad⟩
      cases hbad
  · intro hsp
    have hnc : (flags.sequentialPrepare && isCyclicProject packages) = false := by
      rw [hsp]
      rfl
    refine ⟨msrRun_no_cyclic flags engine packages hnc, ?_⟩
    rcases msrRun_trace flags engine packages hnc with ⟨tail, htr, _⟩
    rw [htr]
    simp

/-- Witness for C2: the two-cycle under sequentialPrepare errors without
creating the synchronizer or invoking a pipeline, and the same graph
without the flag reaches the release phase. -/
theorem C2_cycle_guard_witness :
    ((msrRun flagsSeqPrepare engineGood [pkgC1, pkgC2]).2 = .error .cyclicError ∧
        Ev.createSynchronizer ∉ (msrRun flagsSeqPrepare engineGood [pkgC1, pkgC2]).1 ∧
        (∀ n, Ev.invokePipeline n ∉ (msrRun flagsSeqPrepare engineGood [pkgC1, pkgC2]).1)) ∧
      ((msrRun flagsNone engineGood [pkgC1, pkgC2]).2 ≠ .error .cyclicError ∧
        Ev.createSynchronizer ∈ (msrRun flagsNone engineGood [pkgC1, pkgC2]).1) :=
  ⟨(C2_cycle_guard flagsSeqPrepare engineGood [pkgC1, pkgC2]).1 rfl (by decide),
   (C2_cycle_guard flagsNone engineGood [pkgC1, pkgC2]).2 rfl⟩

/-- C7 counterexample: when a package's pipeline rejects, the `await`
throws before the assignment on line 237, so the package's `result` is
never assigned — refuting that `result` is assigned exactly once for every
package. -/
theorem C7_counterexample :
    Ev.invokePipeline "a" ∈ (msrRun flagsNone engineBoom [pkgA]).1 ∧
      writeCount "a" (msrRun flagsNone engineBoom [pkgA]).1 = 0 ∧
      writeCount "a" (msrRun flagsNone engineBoom [pkgA]).1 ≠ 1 := by
  refine ⟨?_, rfl, by decide⟩
  rw [show (msrRun flagsNone engineBoom [pkgA]).1
      = [Ev.loadedPackage "a", Ev.queuedPackages 1, Ev.createSynchronizer,
         Ev.invokePipeline "a"] from rfl]
  simp

/-- C7 (amended): every package's `result` starts unassigned and is
assigned at most once, only by that package's own task, to the value the
engine resolved with (the skipped marker or the structured outcome);
exactly once when the engine resolves, never when it rejects. -/
theorem C7_amended_single_write (flags : Flags) (engine : Engine) (packages : List Package)
    (p : Package)
    (hnames : (packages.map Package.name).Nodup)
    (hnc : (flags.sequentialPrepare && isCyclicProject packages) = false)
    (hp : p ∈ packages) :
    writeCount p.name (msrRun flags engine packages).1
        = (if (engine p.name).isRejected then 0 else 1) ∧
      (∀ v, Ev.writeResult p.name v ∈ (msrRun flags engine packages).1 →
        v = (match engine p.name with | .released o => some o | _ => none)) := by
  rcases msrRun_trace flags engine packages hnc with ⟨tail, htr, htail⟩
  constructor
  · rw [htr]
    simp only [writeCount_append]
    have h1 : writeCount p.name (packages.map (fun q => Ev.loadedPackage q.name)) = 0 := by
      apply writeCount_nonwrite
      intro e he m v
      rcases List.mem_map.mp he with ⟨q, _, rfl⟩
      simp
    have h2 : writeCount p.name [Ev.queuedPackages packages.length, Ev.createSynchronizer]
        = 0 := rfl
    have h3 : writeCount p.name tail = 0 := by
      apply writeCount_nonwrite
      intro e he m v
      rcases htail e he with ⟨r, t, rfl⟩
      simp
    rw [writeCount_flatten, filter_name_count engine packages p hnames hp, h1, h2, h3]
    cases (engine p.name).isRejected <;> simp
  · intro v hv
    rw [htr] at hv
    rcases List.mem_append.mp hv with h1 | h4
    · rcases List.mem_append.mp h1 with h2 | h3
      · rcases List.mem_append.mp h2 with ha | hb
        · rcases List.mem_map.mp ha with ⟨q, _, hbad⟩
          cases hbad
        · simp at hb
      · rcases List.mem_flatten.mp h3 with ⟨evl, hevl, hev⟩
        rcases List.mem_map.mp hevl with ⟨q, hq, rfl⟩
        have hqv := writeResult_mem_task flags engine q p.name v hev
        have hqp : q = p := List.inj_on_of_nodup_map hnames hq hp hqv.1.symm
        subst hqp
        exact hqv.2
    · rcases htail _ h4 with ⟨r, t, hbad⟩
      cases hbad

/-- Witness for the amended C7: a clean single-package run writes the
result exactly once, with the released outcome. -/
theorem C7_amended_single_write_witness :
    writeCount pkgA.name (msrRun flagsNone engineGood [pkgA]).1
        = (if (engineGood pkgA.name).isRejected then 0 else 1) ∧
      (∀ v, Ev.writeResult pkgA.name v ∈ (msrRun flagsNone engineGood [pkgA]).1 →
        v = (match engineGood pkgA.name with | .released o => some o | _ => none)) :=
  C7_amended_single_write flagsNone engineGood [pkgA] pkgA (by decide) rfl (by decide)

/-- C8: with sequentialInit every package task claims (getLucky) and then
awaits (waitFor) the `_readyForRelease` signal immediately before its
release pipeline is invoked; without sequentialInit no synchronizer claim
or wait occurs anywhere in the run. -/
theorem C8_sequential_init_gate (flags : Flags) (engine : Engine) (packages : List Package)
    (p : Package)
    (hnc : (flags.sequentialPrepare && isCyclicProject packages) = false)
    (hp : p ∈ packages) :
    (flags.sequentialInit = true →
      ∃ pre post, (msrRun flags engine packages).1 =
        pre ++ (Ev.getLuckySignal readyForRelease p.name ::
          Ev.waitForSignal readyForRelease p.name ::
          Ev.invokePipeline p.name :: post)) ∧
    (flags.sequentialInit = false →
      (∀ sig m, Ev.getLuckySignal sig m ∉ (msrRun flags engine packages).1) ∧
      (∀ sig m, Ev.waitForSignal sig m ∉ (msrRun flags engine packages).1)) := by
  rcases msrRun_trace flags engine packages hnc with ⟨tail, htr, htail⟩
  constructor
  · intro hsi
    rcases flatten_segment (fun q => (packageTask flags engine q).events) packages p hp
      with ⟨pre, post, hseg⟩
    have hev : (packageTask flags engine p).events =
        Ev.getLuckySignal readyForRelease p.name ::
          Ev.waitForSignal readyForRelease p.name ::
          Ev.invokePipeline p.name :: writeEvs engine p := by
      rw [packageTask_events, hsi]
      rfl
    refine ⟨(packages.map (fun q => Ev.loadedPackage q.name)
          ++ [Ev.queuedPackages packages.length, Ev.createSynchronizer]) ++ pre,
        writeEvs engine p ++ (post ++ tail), ?_⟩
    rw [htr, hseg, hev]
    simp [List.append_assoc]
  · intro hsi
    have key : ∀ e ∈ (msrRun flags engine packages).1,
        (∀ sig m, e ≠ Ev.getLuckySignal sig m) ∧ (∀ sig m, e ≠ Ev.waitForSignal sig m) := by
      intro e he
      rw [htr] at he
      rcases List.mem_append.mp he with h1 | h4
      · rcases List.mem_append.mp h1 with h2 | h3
        · rcases List.mem_append.mp h2 with ha | hb
          · rcases List.mem_map.mp ha with ⟨q, _, rfl⟩
            exact ⟨fun _ _ => by simp, fun _ _ => by simp⟩
          · simp at hb
            rcases hb with rfl | rfl
            · exact ⟨fun _ _ => by simp, fun _ _ => by simp⟩
            · exact ⟨fun _ _ => by simp, fun _ _ => by simp⟩
        · rcases List.mem_flatten.mp h3 with ⟨evl, hevl, hev⟩
          rcases List.mem_map.mp hevl with ⟨q, hq, rfl⟩
          rw [packageTask_events, hsi] at hev
          simp only [Bool.false_eq_true, if_false, List.nil_append] at hev
          rcases List.mem_cons.mp hev with rfl | hev
          · exact ⟨fun _ _ => by simp, fun _ _ => by simp⟩
          · unfold writeEvs at hev
            cases he2 : engine q.name <;> rw [he2] at hev <;> simp at hev
            · subst hev
              exact ⟨fun _ _ => by simp, fun _ _ => by simp⟩
            · subst hev
              exact ⟨fun _ _ => by simp, fun _ _ => by simp⟩
      · rcases htail e h4 with ⟨r, t, rfl⟩
        exact ⟨fun _ _ => by simp, fun _ _ => by simp⟩
    exact ⟨fun sig m hmem => (key _ hmem).1 sig m rfl,
           fun sig m hmem => (key _ hmem).2 sig m rfl⟩

/-- Witness for C8: a gated single-package run shows the claim-await-invoke
sequence; the ungated run has no signal events. -/
theorem C8_sequential_init_gate_witness :
    (∃ pre post, (msrRun flagsSeqInit engineGood [pkgA]).1 =
        pre ++ (Ev.getLuckySignal readyForRelease pkgA.name ::
          Ev.waitForSignal readyForRelease pkgA.name ::
          Ev.invokePipeline pkgA.name :: post)) ∧
      ((∀ sig m, Ev.getLuckySignal sig m ∉ (msrRun flagsNone engineGood [pkgA]).1) ∧
        (∀ sig m, Ev.waitForSignal sig m ∉ (msrRun flagsNone engineGood [pkgA]).1)) :=
  ⟨(C8_sequential_init_gate flagsSeqInit engineGood [pkgA] pkgA rfl (by decide)).1 rfl,
   (C8_sequential_init_gate flagsNone engineGood [pkgA] pkgA rfl (by decide)).2 rfl⟩

/-- Witness for the amended C6 at a concrete input: with no arguments
supplied, the run errors before loading anything. -/
theorem C6_amended_validation_witness :
    ((∃ msg, (multiSemanticRelease .undef .undef okSettings flagsNone engineGood []).2
        = .error (.configError msg)) ↔ c6AmendedCond .undef .undef okSettings = true) ∧
      (multiSemanticRelease .undef .undef okSettings flagsNone engineGood []).1 = [] :=
  ⟨(C6_amended_validation .undef .undef okSettings flagsNone engineGood []).2.1,
   (C6_amended_validation .undef .undef okSettings flagsNone engineGood []).2.2 (by decide)⟩

/-- Witness for C10 at the CLI example flag set: the truthy
`ignorePackages` string lands at its path split on commas. -/
theorem C10_processFlags_witness :
    ∃ m, processFlags exampleFlags = some m ∧
      lookupPath m (pathOf "ignorePackages")
        = some (processedValue "ignorePackages" (.strv "packages/a,packages/b")) :=
  C10_processFlags exampleFlags "ignorePackages" (.strv "packages/a,packages/b")
    (by decide) (by decide) (by decide)

end MSR
